import Mathlib

/-!
# Transport multiplexer (skycoin-messenger/factory/transport.go)

A shallow embedding of the framing, registry and read-loop code of
`transport.go`, and the properties of it that the specification states.

Bytes are natural numbers below 256, a byte slice is a `List Nat` whose
capacity equals its length, an application connection handle is a natural
number, and a nil handle is `none`. A frame sent to the outbound queue is the
content of the slice at the moment of the send.
-/

namespace Transport

/-! ## Header constants (const blocks of transport.go) -/

def PKG_HEADER_ID_SIZE : Nat := 4
def PKG_HEADER_OP_SIZE : Nat := 1

def PKG_HEADER_BEGIN : Nat := 0
/-- Repeats the expression of the line before it, so it is 0. -/
def PKG_HEADER_OP_BEGIN : Nat := 0
def PKG_HEADER_OP_END : Nat := PKG_HEADER_OP_BEGIN + PKG_HEADER_OP_SIZE
/-- Repeats the expression of the line before it. -/
def PKG_HEADER_ID_BEGIN : Nat := PKG_HEADER_OP_BEGIN + PKG_HEADER_OP_SIZE
def PKG_HEADER_ID_END : Nat := PKG_HEADER_ID_BEGIN + PKG_HEADER_ID_SIZE
/-- Repeats the expression of the line before it. -/
def PKG_HEADER_END : Nat := PKG_HEADER_ID_BEGIN + PKG_HEADER_ID_SIZE

def OP_TRANSPORT : Nat := 0
def OP_CLOSE : Nat := 1
def OP_SHUTDOWN : Nat := 2

/-! ## Go slices and encoding/binary -/

/-- Result of running a piece of Go code: a value, a run-time panic, or no
result within the step budget. -/
inductive Res (α : Type) where
  | ok (a : α)
  | panic
  | diverge
  deriving DecidableEq, Repr

/-- The slice expression `m[lo:hi]`; `none` is the run-time panic. -/
def sliceRange (m : List Nat) (lo hi : Nat) : Option (List Nat) :=
  if lo ≤ hi ∧ hi ≤ m.length then some ((m.take hi).drop lo) else none

/-- The slice expression `m[lo:]`; `none` is the run-time panic. -/
def sliceFrom (m : List Nat) (lo : Nat) : Option (List Nat) :=
  if lo ≤ m.length then some (m.drop lo) else none

/-- The conversion `byte(v)`. -/
def toByte (v : Nat) : Nat := v % 256

/-- Go: `binary.BigEndian.Uint32(b)`, which is
`uint32(b[3]) | uint32(b[2])<<8 | uint32(b[1])<<16 | uint32(b[0])<<24`. -/
def bigEndianUint32 (b : List Nat) : Option Nat :=
  match b with
  | b0 :: b1 :: b2 :: b3 :: _ => some (b3 ||| (b2 <<< 8) ||| (b1 <<< 16) ||| (b0 <<< 24))
  | _ => none

/-- Go: `binary.BigEndian.PutUint32(b, v)`: `b[0] = byte(v >> 24)`,
`b[1] = byte(v >> 16)`, `b[2] = byte(v >> 8)`, `b[3] = byte(v)`. -/
def bigEndianPutUint32 (b : List Nat) (v : Nat) : Option (List Nat) :=
  if 4 ≤ b.length then
    some ((((b.set 0 (toByte (v >>> 24))).set 1 (toByte (v >>> 16))).set 2
      (toByte (v >>> 8))).set 3 (toByte v))
  else none

/-- Writes the slice `b` back into `buf` at offset `off` (what a write through
the alias `buf[off:off+len(b)]` does to `buf`). -/
def writeAt (buf : List Nat) (off : Nat) (b : List Nat) : List Nat :=
  buf.take off ++ b ++ buf.drop (off + b.length)

/-- The four bytes of a stream id, most significant first. -/
def be32 (id : Nat) : List Nat :=
  [(id >>> 24) % 256, (id >>> 16) % 256, (id >>> 8) % 256, id % 256]

/-- Header encoding as appReadLoop does it: a zeroed buffer of `n` bytes,
the id put big-endian at bytes 1..4, the op stored at byte 0, and the first
five bytes taken. -/
def encodeHeader (n : Nat) (op id : Nat) : Option (List Nat) :=
  let buf := List.replicate n 0
  match sliceRange buf PKG_HEADER_ID_BEGIN PKG_HEADER_ID_END with
  | none => none
  | some idb =>
    match bigEndianPutUint32 idb id with
    | none => none
    | some idb1 =>
      let buf1 := writeAt buf PKG_HEADER_ID_BEGIN idb1
      if PKG_HEADER_OP_BEGIN < buf1.length then
        sliceRange (buf1.set PKG_HEADER_OP_BEGIN op) 0 PKG_HEADER_END
      else none

/-- Header decoding as nodeReadLoop does it: the id from `m[1:5]`, the op
from `m[0]`. -/
def decodeHeader (m : List Nat) : Option (Nat × Nat) :=
  match sliceRange m PKG_HEADER_ID_BEGIN PKG_HEADER_ID_END with
  | none => none
  | some idb =>
    match bigEndianUint32 idb with
    | none => none
    | some id =>
      match m[PKG_HEADER_OP_BEGIN]? with
      | none => none
      | some op => some (op, id)

/-! ## Registry, events and state -/

/-- One key of the map `t.conns`: no entry, an entry holding nil, or an entry
holding the application connection `c`. -/
inductive Entry where
  | absent
  | tomb
  | active (c : Nat)
  deriving DecidableEq, Repr

/-- The map `t.conns` of type `map[uint32]net.Conn`. -/
abbrev Registry := Nat → Entry

/-- Go: `t.conns[id] = v` and `delete(t.conns, id)` (with `Entry.absent`). -/
def Registry.set (r : Registry) (id : Nat) (e : Entry) : Registry :=
  fun j => if j = id then e else r j

/-- Go: the value of `t.conns[id]`; nil (`none`) unless the entry is active. -/
def Registry.get (r : Registry) (id : Nat) : Option Nat :=
  match r id with
  | .active c => some c
  | _ => none

/-- What the code does to the outside world, in the order it does it. -/
inductive Event where
  /-- Go: `net.Dial("tcp", appAddress)` was called. -/
  | dial
  /-- Go: `go t.appReadLoop(id, c, conn, create)`. -/
  | spawn (id c : Nat) (create : Bool)
  /-- One call `c.Write(..)` that accepted the bytes `chunk`; `err` tells
  whether it returned an error. -/
  | write (c : Nat) (chunk : List Nat) (err : Bool)
  /-- Go: `c.Close()`. -/
  | close (c : Nat)
  /-- Go: `conn.GetChanOut() <- frame`. -/
  | send (frame : List Nat)
  deriving DecidableEq, Repr

structure State where
  conns : Registry
  trace : List Event

/-- Behaviour of an `io.Writer`: the answer `(n, err != nil)` of its k-th call
within one writeAll, given the bytes offered. -/
abbrev Writer := Nat → List Nat → Nat × Bool

/-! ## writeAll -/

/-- Go: `writeAll(conn, m)`, the loop `for i := 0; i < len(m); { n, err :=
conn.Write(m[i:]); if err != nil { return err }; i += n }`, started at call
number `k` and offset `i`. Returns whether an error was returned, and the
trace; `none` when the loop has not ended after `fuel` iterations. -/
def writeAllFrom (w : Writer) (c : Nat) (m : List Nat) :
    Nat → Nat → Nat → List Event → Option (Bool × List Event)
  | 0, _, i, tr => if i < m.length then none else some (false, tr)
  | fuel + 1, k, i, tr =>
    if i < m.length then
      let r := w k (m.drop i)
      let tr1 := tr ++ [Event.write c ((m.drop i).take r.1) r.2]
      if r.2 then some (true, tr1)
      else writeAllFrom w c m fuel (k + 1) (i + r.1) tr1
    else some (false, tr)

def writeAll (w : Writer) (c : Nat) (m : List Nat) (fuel : Nat) (tr : List Event) :
    Option (Bool × List Event) :=
  writeAllFrom w c m fuel 0 0 tr

/-- The trace of the one call of Write that returned an error, if there was
one, with the bytes it had accepted. -/
def lastWrite (c : Nat) (last : Option (List Nat)) : List Event :=
  match last with
  | none => []
  | some ch => [Event.write c ch true]

/-! ## Resolvers and nodeReadLoop -/

/-- Which closure is passed to nodeReadLoop as `getAppConn`: the one of
`accept` or the one of `Connect`. -/
inductive Resolver where
  | accept
  | connect
  deriving DecidableEq, Repr

/-- The closure `accept` passes: a lookup under the read lock. -/
def getAppConnAccept (id : Nat) (s : State) : Option Nat × State :=
  (s.conns.get id, s)

/-- The closure `Connect` passes; `dial` is what `net.Dial` returns if it is
called (`none` for an error). -/
def getAppConnConnect (dial : Option Nat) (id : Nat) (s : State) : Option Nat × State :=
  match s.conns id with
  | .absent =>
    match dial with
    | none => (none, { s with trace := s.trace ++ [Event.dial] })
    | some c =>
      (some c, { conns := s.conns.set id (.active c),
                 trace := s.trace ++ [Event.dial, Event.spawn id c false] })
  | .tomb => (none, s)
  | .active c => (some c, s)

def getAppConn (r : Resolver) (dial : Option Nat) (id : Nat) (s : State) :
    Option Nat × State :=
  match r with
  | .accept => getAppConnAccept id s
  | .connect => getAppConnConnect dial id s

/-- The part of one nodeReadLoop iteration that follows the resolution of
`appConn` to the non-nil handle `c`. -/
def nodeAfterResolve (w : Writer) (fuel : Nat) (m : List Nat) (id c : Nat) (s : State) :
    Res State :=
  match m[PKG_HEADER_OP_BEGIN]? with
  | none => .panic
  | some op =>
    if op = OP_CLOSE then
      .ok { conns := s.conns.set id .tomb, trace := s.trace ++ [Event.close c] }
    else
      match sliceFrom m PKG_HEADER_END with
      | none => .panic
      | some body =>
        if body.length < 1 then .ok s
        else
          match writeAll w c body fuel s.trace with
          | none => .diverge
          | some (_, tr) => .ok { s with trace := tr }

/-- One iteration of the loop of nodeReadLoop, for the message `m` received
from `conn.GetChanIn()`. -/
def nodeHandle (r : Resolver) (dial : Option Nat) (w : Writer) (fuel : Nat)
    (m : List Nat) (s : State) : Res State :=
  match sliceRange m PKG_HEADER_ID_BEGIN PKG_HEADER_ID_END with
  | none => .panic
  | some idb =>
    match bigEndianUint32 idb with
    | none => .panic
    | some id =>
      match getAppConn r dial id s with
      | (none, s1) => .ok s1
      | (some c, s1) => nodeAfterResolve w fuel m id c s1

/-- One message of the inbound queue with what the environment answers while
it is handled. -/
structure Delivery where
  m : List Nat
  dial : Option Nat
  w : Writer

/-- Go: `nodeReadLoop(conn, getAppConn)` over the messages delivered until the
inbound queue is closed. -/
def nodeReadLoop (r : Resolver) (fuel : Nat) : List Delivery → State → Res State
  | [], s => .ok s
  | d :: ds, s =>
    match nodeHandle r d.dial d.w fuel d.m s with
    | .ok s1 => nodeReadLoop r fuel ds s1
    | .panic => .panic
    | .diverge => .diverge

/-! ## appReadLoop -/

/-- What one call `appConn.Read(buf[PKG_HEADER_END:])` returns: `n` bytes with
a nil error, or an error. -/
inductive ReadResult where
  | ok (b : List Nat)
  | err
  deriving DecidableEq, Repr

/-- The `for` loop of appReadLoop. Returns the buffer, the trace and whether
the loop was left by a read error (otherwise it is still blocked in Read). -/
def appReadLoopBody (buf : List Nat) :
    List ReadResult → List Event → Res (List Nat × List Event × Bool)
  | [], tr => .ok (buf, tr, false)
  | .err :: _, tr => .ok (buf, tr, true)
  | .ok b :: rest, tr =>
    match sliceFrom buf PKG_HEADER_END with
    | none => .panic
    | some p =>
      if b.length ≤ p.length then
        let buf1 := writeAt buf PKG_HEADER_END b
        match sliceRange buf1 0 (PKG_HEADER_END + b.length) with
        | none => .panic
        | some pkg => appReadLoopBody buf1 rest (tr ++ [Event.send pkg])
      else .panic

/-- Go: appReadLoop up to the point where the loop is left: the buffer is
made and the id put in it, the announcement is sent when `create`, and the
reads are served. `maxUdp` is the constant `cn.MAX_UDP_PACKAGE_SIZE`. -/
def appReadLoopRun (maxUdp id : Nat) (create : Bool) (reads : List ReadResult)
    (tr : List Event) : Res (List Nat × List Event × Bool) :=
  let buf := List.replicate (maxUdp - 100) 0
  match sliceRange buf PKG_HEADER_ID_BEGIN PKG_HEADER_ID_END with
  | none => .panic
  | some idb =>
    match bigEndianPutUint32 idb id with
    | none => .panic
    | some idb1 =>
      let buf1 := writeAt buf PKG_HEADER_ID_BEGIN idb1
      if create then
        match sliceRange buf1 0 PKG_HEADER_END with
        | none => .panic
        | some hdr => appReadLoopBody buf1 reads (tr ++ [Event.send hdr])
      else appReadLoopBody buf1 reads tr

/-- The deferred function of appReadLoop, run with the buffer `buf` of the
loop on the state `s` of that moment. -/
def closeSequence (id : Nat) (create : Bool) (buf : List Nat) (s : State) : Res State :=
  match s.conns.get id with
  | some _ =>
    if PKG_HEADER_OP_BEGIN < buf.length then
      match sliceRange (buf.set PKG_HEADER_OP_BEGIN OP_CLOSE) 0 PKG_HEADER_END with
      | none => .panic
      | some frame =>
        if create then
          .ok { conns := s.conns.set id .absent, trace := s.trace ++ [Event.send frame] }
        else
          .ok { conns := s.conns.set id .tomb, trace := s.trace ++ [Event.send frame] }
    else .panic
  | none =>
    if create then .ok { s with conns := s.conns.set id .absent } else .ok s

/-- Go: `appReadLoop(id, appConn, conn, create)` run alone on the state `s`. -/
def appReadLoop (maxUdp id : Nat) (create : Bool) (reads : List ReadResult) (s : State) :
    Res State :=
  match appReadLoopRun maxUdp id create reads s.trace with
  | .ok (buf, tr, exited) =>
    if exited then closeSequence id create buf { s with trace := tr }
    else .ok { s with trace := tr }
  | .panic => .panic
  | .diverge => .diverge

/-! ## Scenarios -/

/-- The frames among the events `evs`, in order. -/
def sentFrames (evs : List Event) : List (List Nat) :=
  evs.filterMap (fun e => match e with
    | Event.send f => some f
    | _ => none)

/-- Close propagation between the two ends of one stream. The application
connection of the dialing side fails, so the close sequence of its
appReadLoop (create = false) runs on the dialing state `sD`; the frames it
submits are delivered to the nodeReadLoop of the accepting side, which runs on
`sA` with the lookup-only resolver; the application connection of the
accepting side having been closed, the close sequence of its appReadLoop
(create = true) runs. Returns the final states of both sides. -/
def closePropagation (id : Nat) (bufD bufA : List Nat) (w : Writer) (fuel : Nat)
    (sD sA : State) : Res (State × State) :=
  match closeSequence id false bufD sD with
  | .ok sD1 =>
    match nodeReadLoop Resolver.accept fuel
        ((sentFrames (sD1.trace.drop sD.trace.length)).map (fun f => ⟨f, none, w⟩)) sA with
    | .ok sA1 =>
      match closeSequence id true bufA sA1 with
      | .ok sA2 => .ok (sD1, sA2)
      | .panic => .panic
      | .diverge => .diverge
    | .panic => .panic
    | .diverge => .diverge
  | .panic => .panic
  | .diverge => .diverge

/-- The lock-protected steps of the two goroutines that race on one id of the
Acceptor side: nodeReadLoop handling a frame (the lookup of `getAppConn` under
the read lock, then the rest of the iteration, which for a CLOSE frame stores
the tombstone under the write lock and closes the connection), and the
deferred close sequence of appReadLoop with create = true. -/
inductive RaceStep where
  | nodeResolve
  | nodeRest
  | appClose
  deriving DecidableEq, Repr

/-- State of the race: the shared state and the local variable `appConn` of
nodeReadLoop once `getAppConn` has returned. -/
structure RaceState where
  st : State
  appConn : Option (Option Nat)

def raceStep (m : List Nat) (id : Nat) (buf : List Nat) :
    RaceStep → RaceState → Res RaceState
  | .nodeResolve, rs =>
    .ok { st := (getAppConn Resolver.accept none id rs.st).2,
          appConn := some (getAppConn Resolver.accept none id rs.st).1 }
  | .nodeRest, rs =>
    match rs.appConn with
    | some (some c) =>
      match nodeAfterResolve (fun _ off => (off.length, false)) m.length m id c rs.st with
      | .ok s1 => .ok { rs with st := s1 }
      | .panic => .panic
      | .diverge => .diverge
    | _ => .ok rs
  | .appClose, rs =>
    match closeSequence id true buf rs.st with
    | .ok s1 => .ok { rs with st := s1 }
    | .panic => .panic
    | .diverge => .diverge

def runRace (m : List Nat) (id : Nat) (buf : List Nat) :
    List RaceStep → RaceState → Res RaceState
  | [], rs => .ok rs
  | st :: rest, rs =>
    match raceStep m id buf st rs with
    | .ok rs1 => runRace m id buf rest rs1
    | .panic => .panic
    | .diverge => .diverge

/-! ## Lemmas on the codec -/

theorem uint32_be32 (id : Nat) (h : id < 2 ^ 32) :
    (id % 256) ||| (((id >>> 8) % 256) <<< 8) ||| (((id >>> 16) % 256) <<< 16)
      ||| (((id >>> 24) % 256) <<< 24) = id := by
  have e1 : ((id >>> 24) % 256) <<< 24 = 2 ^ 24 * ((id >>> 24) % 256) := by
    rw [Nat.shiftLeft_eq, Nat.mul_comm]
  have e2 : ((id >>> 16) % 256) <<< 16 = 2 ^ 16 * ((id >>> 16) % 256) := by
    rw [Nat.shiftLeft_eq, Nat.mul_comm]
  have e3 : ((id >>> 8) % 256) <<< 8 = 2 ^ 8 * ((id >>> 8) % 256) := by
    rw [Nat.shiftLeft_eq, Nat.mul_comm]
  rw [e1, e2, e3]
  simp only [Nat.shiftRight_eq_div_pow]
  have l0 : id % 256 < 2 ^ 8 := by omega
  have o1 : 2 ^ 8 * (id / 2 ^ 8 % 256) ||| id % 256
      = 2 ^ 8 * (id / 2 ^ 8 % 256) + id % 256 := (Nat.mul_add_lt_is_or l0 _).symm
  rw [Nat.lor_comm (id % 256), o1]
  have l1 : 2 ^ 8 * (id / 2 ^ 8 % 256) + id % 256 < 2 ^ 16 := by omega
  have o2 : 2 ^ 16 * (id / 2 ^ 16 % 256) ||| (2 ^ 8 * (id / 2 ^ 8 % 256) + id % 256)
      = 2 ^ 16 * (id / 2 ^ 16 % 256) + (2 ^ 8 * (id / 2 ^ 8 % 256) + id % 256) :=
    (Nat.mul_add_lt_is_or l1 _).symm
  rw [Nat.lor_comm _ (2 ^ 16 * (id / 2 ^ 16 % 256)), o2]
  have l2 : 2 ^ 16 * (id / 2 ^ 16 % 256) + (2 ^ 8 * (id / 2 ^ 8 % 256) + id % 256)
      < 2 ^ 24 := by omega
  have o3 : 2 ^ 24 * (id / 2 ^ 24 % 256)
      ||| (2 ^ 16 * (id / 2 ^ 16 % 256) + (2 ^ 8 * (id / 2 ^ 8 % 256) + id % 256))
      = 2 ^ 24 * (id / 2 ^ 24 % 256)
        + (2 ^ 16 * (id / 2 ^ 16 % 256) + (2 ^ 8 * (id / 2 ^ 8 % 256) + id % 256)) :=
    (Nat.mul_add_lt_is_or l2 _).symm
  rw [Nat.lor_comm _ (2 ^ 24 * (id / 2 ^ 24 % 256)), o3]
  omega

theorem replicate_five_add (k : Nat) :
    List.replicate (5 + k) 0 = 0 :: 0 :: 0 :: 0 :: 0 :: List.replicate k 0 := by
  rw [Nat.add_comm]
  rfl

/-- The buffer appReadLoop starts from, after the id has been put in it. -/
theorem idBuffer_eq (k id : Nat) :
    (match sliceRange (List.replicate (5 + k) 0) PKG_HEADER_ID_BEGIN PKG_HEADER_ID_END with
      | none => none
      | some idb =>
        match bigEndianPutUint32 idb id with
        | none => none
        | some idb1 => some (writeAt (List.replicate (5 + k) 0) PKG_HEADER_ID_BEGIN idb1))
      = some (0 :: be32 id ++ List.replicate k 0) := by
  rw [replicate_five_add]
  simp [sliceRange, bigEndianPutUint32, writeAt, be32, toByte, PKG_HEADER_ID_BEGIN,
    PKG_HEADER_ID_END, PKG_HEADER_OP_BEGIN, PKG_HEADER_OP_SIZE, PKG_HEADER_ID_SIZE]

theorem encodeHeader_eq (n op id : Nat) (h : 5 ≤ n) :
    encodeHeader n op id = some (op :: be32 id) := by
  obtain ⟨k, rfl⟩ := Nat.exists_eq_add_of_le h
  rw [encodeHeader, replicate_five_add]
  simp [sliceRange, bigEndianPutUint32, writeAt, be32, toByte, PKG_HEADER_ID_BEGIN,
    PKG_HEADER_ID_END, PKG_HEADER_OP_BEGIN, PKG_HEADER_OP_SIZE, PKG_HEADER_ID_SIZE,
    PKG_HEADER_END]

theorem decodeHeader_cons (op b0 b1 b2 b3 : Nat) (rest : List Nat) :
    decodeHeader (op :: b0 :: b1 :: b2 :: b3 :: rest)
      = some (op, b3 ||| (b2 <<< 8) ||| (b1 <<< 16) ||| (b0 <<< 24)) := by
  simp [decodeHeader, sliceRange, bigEndianUint32, PKG_HEADER_ID_BEGIN,
    PKG_HEADER_ID_END, PKG_HEADER_OP_BEGIN, PKG_HEADER_OP_SIZE, PKG_HEADER_ID_SIZE]

theorem decodeHeader_frame (op id : Nat) (hid : id < 2 ^ 32) (payload : List Nat) :
    decodeHeader (op :: be32 id ++ payload) = some (op, id) := by
  simp only [be32, List.cons_append, List.nil_append, decodeHeader_cons]
  rw [uint32_be32 id hid]

/-! ## Lemmas on appReadLoop -/

theorem writeAt_append (hdr tail b : List Nat) :
    writeAt (hdr ++ tail) hdr.length b = hdr ++ (b ++ tail.drop b.length) := by
  rw [writeAt, List.take_left, ← List.drop_drop, List.drop_left, List.append_assoc]

theorem appReadLoopBody_ok_step (hdr : List Nat) (hh : hdr.length = 5) (b tail : List Nat)
    (rest : List ReadResult) (tr : List Event) (hb : b.length ≤ tail.length) :
    appReadLoopBody (hdr ++ tail) (ReadResult.ok b :: rest) tr
      = appReadLoopBody (hdr ++ (b ++ tail.drop b.length)) rest
          (tr ++ [Event.send (hdr ++ b)]) := by
  have e5 : PKG_HEADER_END = hdr.length := by rw [hh]; rfl
  have hs : sliceFrom (hdr ++ tail) PKG_HEADER_END = some tail := by
    rw [sliceFrom, e5, List.drop_left, if_pos (by simp)]
  have hw : writeAt (hdr ++ tail) PKG_HEADER_END b = hdr ++ (b ++ tail.drop b.length) := by
    rw [e5, writeAt_append]
  have hr : sliceRange (hdr ++ (b ++ tail.drop b.length)) 0 (PKG_HEADER_END + b.length)
      = some (hdr ++ b) := by
    rw [sliceRange, if_pos (by rw [e5]; simp), List.drop_zero, ← List.append_assoc, e5,
      ← List.length_append, List.take_left]
  rw [appReadLoopBody]
  simp only [hs, if_pos hb, hw, hr]

theorem appReadLoopBody_ok_long (hdr : List Nat) (hh : hdr.length = 5) (b tail : List Nat)
    (rest : List ReadResult) (tr : List Event) (hb : ¬ b.length ≤ tail.length) :
    appReadLoopBody (hdr ++ tail) (ReadResult.ok b :: rest) tr = Res.panic := by
  have e5 : PKG_HEADER_END = hdr.length := by rw [hh]; rfl
  have hs : sliceFrom (hdr ++ tail) PKG_HEADER_END = some tail := by
    rw [sliceFrom, e5, List.drop_left, if_pos (by simp)]
  rw [appReadLoopBody]
  simp only [hs, if_neg hb]

theorem appReadLoopBody_oks (hdr : List Nat) (hh : hdr.length = 5) :
    ∀ (oks : List (List Nat)) (tail : List Nat) (rest : List ReadResult) (tr : List Event),
      (∀ b ∈ oks, b.length ≤ tail.length) →
      ∃ tail1, tail1.length = tail.length ∧
        appReadLoopBody (hdr ++ tail) (oks.map ReadResult.ok ++ rest) tr
          = appReadLoopBody (hdr ++ tail1) rest
              (tr ++ oks.map (fun b => Event.send (hdr ++ b))) := by
  intro oks
  induction oks with
  | nil => intro tail rest tr _; exact ⟨tail, rfl, by simp⟩
  | cons b oks ih =>
    intro tail rest tr hfit
    have hb : b.length ≤ tail.length := hfit b (List.mem_cons_self _ _)
    have hlen : (b ++ tail.drop b.length).length = tail.length := by
      rw [List.length_append, List.length_drop]; omega
    obtain ⟨tail1, ht1, hrec⟩ := ih (b ++ tail.drop b.length) rest
      (tr ++ [Event.send (hdr ++ b)])
      (by intro x hx; rw [hlen]; exact hfit x (List.mem_cons_of_mem _ hx))
    refine ⟨tail1, by rw [ht1, hlen], ?_⟩
    rw [List.map_cons, List.cons_append, appReadLoopBody_ok_step hdr hh b tail _ tr hb, hrec,
      List.map_cons, List.append_assoc, List.singleton_append]

theorem appReadLoopBody_header (hdr : List Nat) (hh : hdr.length = 5) :
    ∀ (reads : List ReadResult) (tail : List Nat) (tr : List Event)
      (buf : List Nat) (tr1 : List Event) (e : Bool),
      appReadLoopBody (hdr ++ tail) reads tr = Res.ok (buf, tr1, e) →
      ∃ tail1, buf = hdr ++ tail1 := by
  intro reads
  induction reads with
  | nil =>
    intro tail tr buf tr1 e h
    simp only [appReadLoopBody, Res.ok.injEq, Prod.mk.injEq] at h
    exact ⟨tail, h.1.symm⟩
  | cons r reads ih =>
    intro tail tr buf tr1 e h
    cases r with
    | err =>
      simp only [appReadLoopBody, Res.ok.injEq, Prod.mk.injEq] at h
      exact ⟨tail, h.1.symm⟩
    | ok b =>
      by_cases hb : b.length ≤ tail.length
      · rw [appReadLoopBody_ok_step hdr hh b tail _ tr hb] at h
        exact ih _ _ _ _ _ h
      · rw [appReadLoopBody_ok_long hdr hh b tail _ tr hb] at h
        exact absurd h (by simp)

theorem appReadLoopRun_eq (k id : Nat) (create : Bool) (reads : List ReadResult)
    (tr : List Event) (maxUdp : Nat) (hk : maxUdp - 100 = 5 + k) :
    appReadLoopRun maxUdp id create reads tr
      = appReadLoopBody ((OP_TRANSPORT :: be32 id) ++ List.replicate k 0) reads
          (tr ++ if create then [Event.send (OP_TRANSPORT :: be32 id)] else []) := by
  have hb := idBuffer_eq k id
  unfold appReadLoopRun
  simp only [hk]
  generalize List.replicate (5 + k) 0 = buf at hb ⊢
  cases hs : sliceRange buf PKG_HEADER_ID_BEGIN PKG_HEADER_ID_END with
  | none => rw [hs] at hb; exact absurd hb (by simp)
  | some idb =>
    rw [hs] at hb
    simp only at hb ⊢
    cases hp : bigEndianPutUint32 idb id with
    | none => rw [hp] at hb; exact absurd hb (by simp)
    | some idb1 =>
      rw [hp] at hb
      simp only [Option.some.injEq] at hb
      simp only [hb]
      cases create with
      | false => simp [OP_TRANSPORT]
      | true =>
        have h5 : sliceRange (0 :: be32 id ++ List.replicate k 0) 0 PKG_HEADER_END
            = some (0 :: be32 id) := by
          simp [sliceRange, be32, PKG_HEADER_END, PKG_HEADER_ID_BEGIN,
            PKG_HEADER_OP_BEGIN, PKG_HEADER_OP_SIZE, PKG_HEADER_ID_SIZE]
        simp only [h5, if_true, OP_TRANSPORT]

theorem appReadLoopRun_buf (maxUdp id : Nat) (create : Bool) (reads : List ReadResult)
    (tr0 tr : List Event) (buf : List Nat) (e : Bool)
    (hrun : appReadLoopRun maxUdp id create reads tr0 = Res.ok (buf, tr, e)) :
    ∃ tail, buf = (OP_TRANSPORT :: be32 id) ++ tail := by
  by_cases h5 : 5 ≤ maxUdp - 100
  · obtain ⟨k, hk⟩ := Nat.exists_eq_add_of_le h5
    rw [appReadLoopRun_eq k id create reads tr0 maxUdp hk] at hrun
    exact appReadLoopBody_header (OP_TRANSPORT :: be32 id) rfl _ _ _ _ _ _ hrun
  · exfalso
    have hlt : maxUdp - 100 < 5 := Nat.lt_of_not_le h5
    have hs : sliceRange (List.replicate (maxUdp - 100) 0) PKG_HEADER_ID_BEGIN
        PKG_HEADER_ID_END = none := by
      rw [sliceRange, if_neg]
      rw [List.length_replicate]
      intro h
      have h2 : PKG_HEADER_ID_END = 5 := rfl
      omega
    unfold appReadLoopRun at hrun
    simp only [hs] at hrun
    exact absurd hrun (by simp)

theorem closeSequence_active (id c : Nat) (create : Bool) (tail : List Nat) (s : State)
    (h : s.conns id = Entry.active c) :
    closeSequence id create ((OP_TRANSPORT :: be32 id) ++ tail) s
      = Res.ok { conns := s.conns.set id (if create then Entry.absent else Entry.tomb),
                 trace := s.trace ++ [Event.send (OP_CLOSE :: be32 id)] } := by
  have hframe : sliceRange (((OP_TRANSPORT :: be32 id) ++ tail).set PKG_HEADER_OP_BEGIN OP_CLOSE)
      0 PKG_HEADER_END = some (OP_CLOSE :: be32 id) := by
    simp [sliceRange, be32, PKG_HEADER_END, PKG_HEADER_ID_BEGIN,
      PKG_HEADER_OP_BEGIN, PKG_HEADER_OP_SIZE, PKG_HEADER_ID_SIZE]
  have hpos : PKG_HEADER_OP_BEGIN < ((OP_TRANSPORT :: be32 id) ++ tail).length := by
    simp [PKG_HEADER_OP_BEGIN]
  unfold closeSequence
  simp only [Registry.get, h, hframe, if_pos hpos]
  cases create <;> rfl

theorem closeSequence_inactive (id : Nat) (create : Bool) (buf : List Nat) (s : State)
    (h : ∀ c, s.conns id ≠ Entry.active c) :
    closeSequence id create buf s
      = Res.ok { conns := if create then s.conns.set id Entry.absent else s.conns,
                 trace := s.trace } := by
  have hg : s.conns.get id = none := by
    unfold Registry.get
    cases he : s.conns id with
    | active c => exact absurd he (h c)
    | absent => rfl
    | tomb => rfl
  unfold closeSequence
  simp only [hg]
  cases create <;> rfl

/-! ## Lemmas on nodeReadLoop -/

theorem decodeHeader_some (m : List Nat) (op id : Nat) (h : decodeHeader m = some (op, id)) :
    ∃ idb, sliceRange m PKG_HEADER_ID_BEGIN PKG_HEADER_ID_END = some idb ∧
      bigEndianUint32 idb = some id ∧ m[PKG_HEADER_OP_BEGIN]? = some op := by
  unfold decodeHeader at h
  cases hs : sliceRange m PKG_HEADER_ID_BEGIN PKG_HEADER_ID_END with
  | none => rw [hs] at h; exact absurd h (by simp)
  | some idb =>
    rw [hs] at h
    simp only at h
    cases hu : bigEndianUint32 idb with
    | none => rw [hu] at h; exact absurd h (by simp)
    | some id1 =>
      rw [hu] at h
      simp only at h
      cases ho : m[PKG_HEADER_OP_BEGIN]? with
      | none => rw [ho] at h; exact absurd h (by simp)
      | some op1 =>
        rw [ho] at h
        simp only [Option.some.injEq, Prod.mk.injEq] at h
        exact ⟨idb, rfl, h.2 ▸ hu, by rw [h.1]⟩

theorem nodeHandle_decoded (r : Resolver) (dial : Option Nat) (w : Writer) (fuel : Nat)
    (m : List Nat) (s : State) (op id : Nat) (h : decodeHeader m = some (op, id)) :
    nodeHandle r dial w fuel m s =
      match getAppConn r dial id s with
      | (none, s1) => Res.ok s1
      | (some c, s1) => nodeAfterResolve w fuel m id c s1 := by
  obtain ⟨idb, hs, hu, _⟩ := decodeHeader_some m op id h
  unfold nodeHandle
  simp only [hs, hu]

theorem nodeAfterResolve_close (w : Writer) (fuel : Nat) (m : List Nat) (id c : Nat)
    (s : State) (h : decodeHeader m = some (OP_CLOSE, id)) :
    nodeAfterResolve w fuel m id c s
      = Res.ok { conns := s.conns.set id Entry.tomb, trace := s.trace ++ [Event.close c] } := by
  obtain ⟨_, _, _, ho⟩ := decodeHeader_some m OP_CLOSE id h
  unfold nodeAfterResolve
  simp only [ho, if_true]

theorem getAppConn_active (r : Resolver) (dial : Option Nat) (id c : Nat) (s : State)
    (h : s.conns id = Entry.active c) : getAppConn r dial id s = (some c, s) := by
  cases r with
  | accept => simp [getAppConn, getAppConnAccept, Registry.get, h]
  | connect => simp [getAppConn, getAppConnConnect, h]

theorem Registry.set_set (r : Registry) (id : Nat) (e1 e2 : Entry) :
    (r.set id e1).set id e2 = r.set id e2 := by
  funext j
  unfold Registry.set
  by_cases hj : j = id <;> simp [hj]

theorem nodeReadLoop_cons_ok (r : Resolver) (fuel : Nat) (d : Delivery) (ds : List Delivery)
    (s s1 : State) (h : nodeHandle r d.dial d.w fuel d.m s = Res.ok s1) :
    nodeReadLoop r fuel (d :: ds) s = nodeReadLoop r fuel ds s1 := by
  rw [nodeReadLoop, h]

theorem nodeHandle_short (r : Resolver) (dial : Option Nat) (w : Writer) (fuel : Nat)
    (m : List Nat) (s : State) (h : m.length < 5) :
    nodeHandle r dial w fuel m s = Res.panic := by
  have hs : sliceRange m PKG_HEADER_ID_BEGIN PKG_HEADER_ID_END = none := by
    rw [sliceRange, if_neg]
    intro h1
    have h2 : PKG_HEADER_ID_END = 5 := rfl
    omega
  unfold nodeHandle
  simp only [hs]

theorem nodeHandle_close_active (r : Resolver) (dial : Option Nat) (w : Writer) (fuel : Nat)
    (m : List Nat) (id c : Nat) (s : State)
    (hm : decodeHeader m = some (OP_CLOSE, id)) (hact : s.conns id = Entry.active c) :
    nodeHandle r dial w fuel m s
      = Res.ok { conns := s.conns.set id Entry.tomb, trace := s.trace ++ [Event.close c] } := by
  rw [nodeHandle_decoded r dial w fuel m s OP_CLOSE id hm, getAppConn_active r dial id c s hact]
  exact nodeAfterResolve_close w fuel m id c s hm

theorem nodeHandle_unresolved (r : Resolver) (dial : Option Nat) (w : Writer) (fuel : Nat)
    (m : List Nat) (op id : Nat) (s : State)
    (hm : decodeHeader m = some (op, id))
    (h : s.conns id = Entry.tomb ∨ (r = Resolver.accept ∧ s.conns id = Entry.absent)) :
    nodeHandle r dial w fuel m s = Res.ok s := by
  rw [nodeHandle_decoded r dial w fuel m s op id hm]
  rcases h with h | ⟨hr, h⟩
  · cases r with
    | accept => simp [getAppConn, getAppConnAccept, Registry.get, h]
    | connect => simp [getAppConn, getAppConnConnect, h]
  · subst hr
    simp [getAppConn, getAppConnAccept, Registry.get, h]

/-! ## Lemmas on writeAll -/

theorem drop_add_eq (m : List Nat) (i n : Nat) :
    (m.drop i).take n ++ m.drop (i + n) = m.drop i := by
  rw [← List.drop_drop, List.take_append_drop]

theorem writeAllFrom_run (w : Writer) (c : Nat) (m : List Nat)
    (hw : ∀ k off, off ≠ [] → (w k off).2 = true ∨ 1 ≤ (w k off).1) :
    ∀ (fuel k i : Nat) (tr : List Event), m.length - i ≤ fuel →
      ∃ (chunks : List (List Nat)) (last : Option (List Nat)),
        writeAllFrom w c m fuel k i tr
          = some (last.isSome,
              tr ++ chunks.map (fun ch => Event.write c ch false) ++ lastWrite c last) ∧
        (∃ rest, chunks.flatten ++ last.getD [] ++ rest = m.drop i) ∧
        (last = none → chunks.flatten = m.drop i) ∧
        (last ≠ none → ∃ k1 off, (w k1 off).2 = true) := by
  intro fuel
  induction fuel with
  | zero =>
    intro k i tr hf
    have hi : ¬ i < m.length := by omega
    have hd : m.drop i = [] := List.drop_eq_nil_of_le (by omega)
    refine ⟨[], none, ?_, ⟨[], ?_⟩, ?_, ?_⟩
    · simp [writeAllFrom, hi, lastWrite]
    · simp [hd]
    · intro _; simp [hd]
    · intro h; exact absurd rfl h
  | succ fuel ih =>
    intro k i tr hf
    by_cases hi : i < m.length
    · have hne : m.drop i ≠ [] := by
        intro h
        have := List.drop_eq_nil_iff.mp h
        omega
      cases he : (w k (m.drop i)).2 with
      | true =>
        refine ⟨[], some ((m.drop i).take (w k (m.drop i)).1),
          ?_, ⟨(m.drop i).drop (w k (m.drop i)).1, ?_⟩, ?_, ?_⟩
        · rw [writeAllFrom]
          simp [hi, he, lastWrite]
        · simp [List.take_append_drop]
        · intro h; exact absurd h (by simp)
        · intro _; exact ⟨k, m.drop i, he⟩
      | false =>
        have h1 : 1 ≤ (w k (m.drop i)).1 := by
          rcases hw k (m.drop i) hne with h | h
          · rw [he] at h; exact absurd h (by simp)
          · exact h
        obtain ⟨chunks, last, hrun, ⟨rest, hrest⟩, hall, herr⟩ :=
          ih (k + 1) (i + (w k (m.drop i)).1)
            (tr ++ [Event.write c ((m.drop i).take (w k (m.drop i)).1) false]) (by omega)
        refine ⟨(m.drop i).take (w k (m.drop i)).1 :: chunks, last, ?_, ⟨rest, ?_⟩, ?_, herr⟩
        · rw [writeAllFrom]
          simp only [hi, if_true, he]
          rw [hrun]
          simp
        · rw [List.flatten_cons, List.append_assoc, List.append_assoc,
            ← List.append_assoc chunks.flatten, hrest, drop_add_eq]
        · intro hl
          rw [List.flatten_cons, hall hl, drop_add_eq]
    · have hd : m.drop i = [] := List.drop_eq_nil_of_le (by omega)
      refine ⟨[], none, ?_, ⟨[], ?_⟩, ?_, ?_⟩
      · rw [writeAllFrom]
        simp [hi, lastWrite]
      · simp [hd]
      · intro _; simp [hd]
      · intro h; exact absurd rfl h

/-! ## The claims -/

/-- C2: header round trip. For every op code below 256, every stream id below
2^32, every buffer of at least five bytes and every payload, the header that
appReadLoop builds is the five bytes op, id big-endian, and decoding the
header followed by the payload the way nodeReadLoop does gives back exactly
(op, id). -/
theorem header_round_trip (n op id : Nat) (payload : List Nat)
    (hn : 5 ≤ n) (hop : op < 256) (hid : id < 2 ^ 32) :
    ∃ hdr, encodeHeader n op id = some hdr ∧ hdr.length = 5 ∧
      (∀ x ∈ hdr, x < 256) ∧ decodeHeader (hdr ++ payload) = some (op, id) := by
  refine ⟨op :: be32 id, encodeHeader_eq n op id hn, rfl, ?_, ?_⟩
  · intro x hx
    simp only [be32, List.mem_cons, List.mem_singleton, List.not_mem_nil, or_false] at hx
    rcases hx with rfl | rfl | rfl | rfl | rfl
    · exact hop
    all_goals exact Nat.mod_lt _ (by decide)
  · exact decodeHeader_frame op id hid payload

theorem header_round_trip_witness :
    ∃ hdr, encodeHeader 1100 OP_CLOSE 1 = some hdr ∧ hdr.length = 5 ∧
      (∀ x ∈ hdr, x < 256) ∧ decodeHeader (hdr ++ [80, 73]) = some (OP_CLOSE, 1) :=
  header_round_trip 1100 OP_CLOSE 1 [80, 73] (by decide) (by decide) (by decide)

/-- C1: for every stream id, every buffer of at least five bytes and every
run of successful application reads that each return at most the buffer
capacity minus five bytes, what appReadLoop submits to the outbound queue is
the announcement header when it owns the stream, followed by one frame per
read, and the frame for the bytes b is exactly op code 0, the id as four
big-endian bytes, then b; the loop is still running afterwards. -/
theorem appReadLoop_frames (maxUdp id : Nat) (create : Bool) (oks : List (List Nat))
    (tr : List Event) (hbuf : 5 ≤ maxUdp - 100)
    (hfit : ∀ b ∈ oks, b.length ≤ maxUdp - 100 - 5) :
    ∃ buf, appReadLoopRun maxUdp id create (oks.map ReadResult.ok) tr
      = Res.ok (buf,
          tr ++ (if create then [Event.send (OP_TRANSPORT :: be32 id)] else [])
            ++ oks.map (fun b => Event.send (OP_TRANSPORT :: be32 id ++ b)),
          false) := by
  obtain ⟨k, hk⟩ := Nat.exists_eq_add_of_le hbuf
  have hfit1 : ∀ b ∈ oks, b.length ≤ (List.replicate k 0).length := by
    intro b hb
    have := hfit b hb
    rw [List.length_replicate]
    omega
  obtain ⟨tail1, _, hrun⟩ := appReadLoopBody_oks (OP_TRANSPORT :: be32 id) rfl oks
    (List.replicate k 0) []
    (tr ++ if create then [Event.send (OP_TRANSPORT :: be32 id)] else []) hfit1
  refine ⟨(OP_TRANSPORT :: be32 id) ++ tail1, ?_⟩
  rw [appReadLoopRun_eq k id create _ tr maxUdp hk]
  rw [List.append_nil] at hrun
  rw [hrun, appReadLoopBody]

theorem appReadLoop_frames_witness :
    ∃ buf, appReadLoopRun 1200 1 true [ReadResult.ok [80, 73, 78, 71]] []
      = Res.ok (buf, [Event.send [0, 0, 0, 0, 1], Event.send [0, 0, 0, 0, 1, 80, 73, 78, 71]],
          false) :=
  appReadLoop_frames 1200 1 true [[80, 73, 78, 71]] [] (by decide) (by decide)

/-- C7: the deferred close sequence of appReadLoop, run with the buffer of any
loop that was left by a read error, on any registry. If the entry of the id is
active it submits exactly one frame, CLOSE followed by the id big-endian, and
then deletes the entry when create is set and tombstones it otherwise. If the
entry is a tombstone or absent it submits nothing, and deletes the entry when
create is set and leaves it as it was otherwise. Entries of other ids are
unchanged. -/
theorem closeSequence_spec (maxUdp id : Nat) (create : Bool) (reads : List ReadResult)
    (tr0 tr : List Event) (buf : List Nat)
    (hrun : appReadLoopRun maxUdp id create reads tr0 = Res.ok (buf, tr, true))
    (s : State) :
    ∃ s1, closeSequence id create buf s = Res.ok s1 ∧
      (∀ j, j ≠ id → s1.conns j = s.conns j) ∧
      (∀ c, s.conns id = Entry.active c →
        s1.trace = s.trace ++ [Event.send (OP_CLOSE :: be32 id)] ∧
        s1.conns id = if create then Entry.absent else Entry.tomb) ∧
      ((∀ c, s.conns id ≠ Entry.active c) →
        s1.trace = s.trace ∧
        s1.conns id = if create then Entry.absent else s.conns id) := by
  have hbuf : ∃ tail, buf = (OP_TRANSPORT :: be32 id) ++ tail := by
    by_cases h5 : 5 ≤ maxUdp - 100
    · obtain ⟨k, hk⟩ := Nat.exists_eq_add_of_le h5
      rw [appReadLoopRun_eq k id create reads tr0 maxUdp hk] at hrun
      exact appReadLoopBody_header (OP_TRANSPORT :: be32 id) rfl _ _ _ _ _ _ hrun
    · exfalso
      have hlt : maxUdp - 100 < 5 := Nat.lt_of_not_le h5
      have hs : sliceRange (List.replicate (maxUdp - 100) 0) PKG_HEADER_ID_BEGIN
          PKG_HEADER_ID_END = none := by
        rw [sliceRange, if_neg]
        rw [List.length_replicate]
        intro h
        have h2 : PKG_HEADER_ID_END = 5 := rfl
        omega
      unfold appReadLoopRun at hrun
      simp only [hs] at hrun
      exact absurd hrun (by simp)
  obtain ⟨tail, rfl⟩ := hbuf
  have hframe : sliceRange (((OP_TRANSPORT :: be32 id) ++ tail).set PKG_HEADER_OP_BEGIN OP_CLOSE)
      0 PKG_HEADER_END = some (OP_CLOSE :: be32 id) := by
    simp [sliceRange, be32, PKG_HEADER_END, PKG_HEADER_ID_BEGIN,
      PKG_HEADER_OP_BEGIN, PKG_HEADER_OP_SIZE, PKG_HEADER_ID_SIZE]
  have hpos : PKG_HEADER_OP_BEGIN < ((OP_TRANSPORT :: be32 id) ++ tail).length := by
    simp [PKG_HEADER_OP_BEGIN]
  unfold closeSequence
  cases he : s.conns id with
  | active c =>
    simp only [Registry.get, he, hframe, if_pos hpos]
    cases create with
    | true =>
      refine ⟨_, rfl, ?_, ?_, ?_⟩
      · intro j hj; simp [Registry.set, hj]
      · intro c1 _; simp [Registry.set]
      · intro h; exact absurd rfl (h c)
    | false =>
      refine ⟨_, rfl, ?_, ?_, ?_⟩
      · intro j hj; simp [Registry.set, hj]
      · intro c1 _; simp [Registry.set]
      · intro h; exact absurd rfl (h c)
  | absent =>
    simp only [Registry.get, he]
    cases create with
    | true =>
      refine ⟨_, rfl, ?_, ?_, ?_⟩
      · intro j hj; simp [Registry.set, hj]
      · intro c1 h; exact absurd h (by simp)
      · intro _; simp [Registry.set]
    | false =>
      refine ⟨_, rfl, ?_, ?_, ?_⟩
      · intro j _; rfl
      · intro c1 h; exact absurd h (by simp)
      · intro _; simp [he]
  | tomb =>
    simp only [Registry.get, he]
    cases create with
    | true =>
      refine ⟨_, rfl, ?_, ?_, ?_⟩
      · intro j hj; simp [Registry.set, hj]
      · intro c1 h; exact absurd h (by simp)
      · intro _; simp [Registry.set]
    | false =>
      refine ⟨_, rfl, ?_, ?_, ?_⟩
      · intro j _; rfl
      · intro c1 h; exact absurd h (by simp)
      · intro _; simp [he]

theorem closeSequence_spec_witness :
    ∃ s1, closeSequence 1 false (0 :: 0 :: 0 :: 0 :: 1 :: 80 :: List.replicate 4 0)
        { conns := fun j => if j = 1 then Entry.active 9 else Entry.absent, trace := [] }
        = Res.ok s1 ∧
      (∀ j, j ≠ 1 → s1.conns j = if j = 1 then Entry.active 9 else Entry.absent) ∧
      (∀ c, (if (1 : Nat) = 1 then Entry.active 9 else Entry.absent) = Entry.active c →
        s1.trace = [] ++ [Event.send (OP_CLOSE :: be32 1)] ∧
        s1.conns 1 = if false then Entry.absent else Entry.tomb) ∧
      ((∀ c, (if (1 : Nat) = 1 then Entry.active 9 else Entry.absent) ≠ Entry.active c) →
        s1.trace = [] ∧
        s1.conns 1 = if false then Entry.absent
          else (if (1 : Nat) = 1 then Entry.active 9 else Entry.absent)) :=
  closeSequence_spec 110 1 false [ReadResult.ok [80], ReadResult.err] []
    [Event.send [0, 0, 0, 0, 1, 80]] (0 :: 0 :: 0 :: 0 :: 1 :: 80 :: List.replicate 4 0)
    (by rfl)
    { conns := fun j => if j = 1 then Entry.active 9 else Entry.absent, trace := [] }

/-- C9: the resolver that Connect passes to nodeReadLoop. With an active entry
for the id it returns that handle, does not dial and leaves the state as it
was. With no entry it dials exactly once; when the dial succeeds it stores the
new connection as the active entry, starts its appReadLoop and returns it, and
a second resolution returns the same handle without dialing; when the dial
fails it returns nil and the registry is unchanged. Entries of other ids are
never changed. -/
theorem getAppConnConnect_spec (dial : Option Nat) (id : Nat) (s : State) :
    (∀ c, s.conns id = Entry.active c → getAppConnConnect dial id s = (some c, s)) ∧
    (s.conns id = Entry.absent → ∀ c, dial = some c →
      ∃ s1, getAppConnConnect dial id s = (some c, s1) ∧
        s1.conns id = Entry.active c ∧
        s1.trace = s.trace ++ [Event.dial, Event.spawn id c false] ∧
        ∀ dial2, getAppConnConnect dial2 id s1 = (some c, s1)) ∧
    (s.conns id = Entry.absent → dial = none →
      getAppConnConnect dial id s
        = (none, { conns := s.conns, trace := s.trace ++ [Event.dial] })) ∧
    (∀ j, j ≠ id → (getAppConnConnect dial id s).2.conns j = s.conns j) := by
  refine ⟨?_, ?_, ?_, ?_⟩
  · intro c h
    simp [getAppConnConnect, h]
  · intro h c hd
    subst hd
    refine ⟨{ conns := s.conns.set id (Entry.active c),
              trace := s.trace ++ [Event.dial, Event.spawn id c false] }, ?_, ?_, rfl, ?_⟩
    · simp [getAppConnConnect, h]
    · simp [Registry.set]
    · intro dial2
      simp [getAppConnConnect, Registry.set]
  · intro h hd
    subst hd
    simp [getAppConnConnect, h]
  · intro j hj
    unfold getAppConnConnect
    cases s.conns id with
    | absent =>
      cases dial with
      | none => rfl
      | some c => simp [Registry.set, hj]
    | tomb => rfl
    | active c => rfl

theorem getAppConnConnect_spec_witness :
    (∃ s1, getAppConnConnect (some 4) 7 { conns := fun _ => Entry.absent, trace := [] }
        = (some 4, s1) ∧
      s1.conns 7 = Entry.active 4 ∧
      s1.trace = [] ++ [Event.dial, Event.spawn 7 4 false] ∧
      ∀ dial2, getAppConnConnect dial2 7 s1 = (some 4, s1)) ∧
    getAppConnConnect none 7 { conns := fun _ => Entry.absent, trace := [] }
      = (none, { conns := fun _ => Entry.absent, trace := [] ++ [Event.dial] }) :=
  ⟨(getAppConnConnect_spec (some 4) 7 { conns := fun _ => Entry.absent, trace := [] }).2.1
      rfl 4 rfl,
   (getAppConnConnect_spec none 7 { conns := fun _ => Entry.absent, trace := [] }).2.2.1
      rfl rfl⟩

/-- C8, as stated, fails: on the Connect side the entry of id 7 is created by
the dialing resolver when a TRANSPORT frame arrives, and the CLOSE frame that
follows leaves that entry as a tombstone, not absent. -/
theorem close_receipt_connect_counterexample :
    ∃ s1, nodeReadLoop Resolver.connect 1
        [⟨[0, 0, 0, 0, 7, 80], some 3, fun _ off => (off.length, false)⟩,
         ⟨[1, 0, 0, 0, 7], none, fun _ off => (off.length, false)⟩]
        { conns := fun _ => Entry.absent, trace := [] } = Res.ok s1 ∧
      s1.conns 7 = Entry.tomb ∧ s1.conns 7 ≠ Entry.absent ∧
      s1.trace = [Event.dial, Event.spawn 7 3 false, Event.write 3 [80] false,
        Event.close 3] :=
  ⟨_, rfl, rfl, by decide, rfl⟩

/-- C8 amended: when nodeReadLoop handles a CLOSE frame, of any payload
length, for an id with an active entry, with either resolver and whoever
created the entry, it closes that application connection, writes nothing to
it, and leaves the entry as a tombstone; entries of other ids are unchanged. -/
theorem close_receipt_tombstones (r : Resolver) (dial : Option Nat) (w : Writer)
    (fuel : Nat) (m : List Nat) (id c : Nat) (s : State)
    (hm : decodeHeader m = some (OP_CLOSE, id)) (hact : s.conns id = Entry.active c) :
    ∃ s1, nodeHandle r dial w fuel m s = Res.ok s1 ∧
      s1.conns id = Entry.tomb ∧
      (∀ j, j ≠ id → s1.conns j = s.conns j) ∧
      s1.trace = s.trace ++ [Event.close c] := by
  refine ⟨{ conns := s.conns.set id Entry.tomb, trace := s.trace ++ [Event.close c] },
    ?_, ?_, ?_, rfl⟩
  · rw [nodeHandle_decoded r dial w fuel m s OP_CLOSE id hm, getAppConn_active r dial id c s hact]
    exact nodeAfterResolve_close w fuel m id c s hm
  · simp [Registry.set]
  · intro j hj
    simp [Registry.set, hj]

theorem close_receipt_tombstones_witness :
    ∃ s1, nodeHandle Resolver.connect none (fun _ off => (off.length, false)) 0
        [1, 0, 0, 0, 7, 80, 81]
        { conns := fun j => if j = 7 then Entry.active 3 else Entry.absent, trace := [] }
        = Res.ok s1 ∧
      s1.conns 7 = Entry.tomb ∧
      (∀ j, j ≠ 7 → s1.conns j = if j = 7 then Entry.active 3 else Entry.absent) ∧
      s1.trace = [] ++ [Event.close 3] :=
  close_receipt_tombstones Resolver.connect none (fun _ off => (off.length, false)) 0
    [1, 0, 0, 0, 7, 80, 81] 7 3
    { conns := fun j => if j = 7 then Entry.active 3 else Entry.absent, trace := [] }
    (by rfl) (by rfl)

/-- C10, as stated, fails for the resolver of the Connect side: a CLOSE frame
for the unknown id 7 makes it dial, register the new connection, start its
appReadLoop, and then tombstone the entry and close the connection. -/
theorem close_unknown_connect_counterexample :
    ∃ s1, nodeHandle Resolver.connect (some 3) (fun _ off => (off.length, false)) 0
        [1, 0, 0, 0, 7] { conns := fun _ => Entry.absent, trace := [] } = Res.ok s1 ∧
      s1.conns 7 = Entry.tomb ∧
      s1.trace = [Event.dial, Event.spawn 7 3 false, Event.close 3] :=
  ⟨_, rfl, rfl, rfl⟩

/-- C10 amended: for a CLOSE frame whose id has no registry entry, nodeReadLoop
never fails, submits no frame, and goes on with the next frame. With the
lookup-only resolver of the Acceptor side nothing at all happens. With the
dialing resolver of the Connect side the application address is dialed once:
after a failed dial the registry is unchanged, after a successful dial the new
connection is registered, its appReadLoop is started, and the entry is then
tombstoned and the connection closed. -/
theorem close_unknown_id (dial : Option Nat) (w : Writer) (fuel : Nat) (m : List Nat)
    (id : Nat) (s : State) (ds : List Delivery)
    (hm : decodeHeader m = some (OP_CLOSE, id)) (habs : s.conns id = Entry.absent) :
    nodeHandle Resolver.accept dial w fuel m s = Res.ok s ∧
    nodeHandle Resolver.connect none w fuel m s
      = Res.ok { conns := s.conns, trace := s.trace ++ [Event.dial] } ∧
    (∀ c, nodeHandle Resolver.connect (some c) w fuel m s
      = Res.ok { conns := s.conns.set id Entry.tomb,
                 trace := s.trace ++ [Event.dial, Event.spawn id c false, Event.close c] }) ∧
    (∀ r, ∃ s1, nodeHandle r dial w fuel m s = Res.ok s1 ∧
      (∃ evs, s1.trace = s.trace ++ evs ∧ ∀ f, Event.send f ∉ evs) ∧
      nodeReadLoop r fuel (⟨m, dial, w⟩ :: ds) s = nodeReadLoop r fuel ds s1) := by
  have hacc : nodeHandle Resolver.accept dial w fuel m s = Res.ok s := by
    rw [nodeHandle_decoded _ dial w fuel m s OP_CLOSE id hm]
    simp [getAppConn, getAppConnAccept, Registry.get, habs]
  have hnone : nodeHandle Resolver.connect none w fuel m s
      = Res.ok { conns := s.conns, trace := s.trace ++ [Event.dial] } := by
    rw [nodeHandle_decoded _ none w fuel m s OP_CLOSE id hm]
    simp [getAppConn, getAppConnConnect, habs]
  have hsome : ∀ c, nodeHandle Resolver.connect (some c) w fuel m s
      = Res.ok { conns := s.conns.set id Entry.tomb,
                 trace := s.trace ++ [Event.dial, Event.spawn id c false, Event.close c] } := by
    intro c
    rw [nodeHandle_decoded _ (some c) w fuel m s OP_CLOSE id hm]
    simp only [getAppConn, getAppConnConnect, habs]
    rw [nodeAfterResolve_close w fuel m id c _ hm]
    simp [Registry.set_set]
  refine ⟨hacc, hnone, hsome, ?_⟩
  intro r
  cases r with
  | accept =>
    exact ⟨s, hacc, ⟨[], by simp, by simp⟩, nodeReadLoop_cons_ok _ fuel ⟨m, dial, w⟩ ds s s hacc⟩
  | connect =>
    cases dial with
    | none =>
      exact ⟨_, hnone, ⟨[Event.dial], rfl, by simp⟩,
        nodeReadLoop_cons_ok _ fuel ⟨m, none, w⟩ ds s _ hnone⟩
    | some c =>
      exact ⟨_, hsome c, ⟨[Event.dial, Event.spawn id c false, Event.close c], rfl, by simp⟩,
        nodeReadLoop_cons_ok _ fuel ⟨m, some c, w⟩ ds s _ (hsome c)⟩

theorem close_unknown_id_witness :
    nodeHandle Resolver.accept none (fun _ off => (off.length, false)) 0 [1, 0, 0, 0, 7]
        { conns := fun _ => Entry.absent, trace := [] }
      = Res.ok { conns := fun _ => Entry.absent, trace := [] } ∧
    nodeHandle Resolver.connect none (fun _ off => (off.length, false)) 0 [1, 0, 0, 0, 7]
        { conns := fun _ => Entry.absent, trace := [] }
      = Res.ok { conns := fun _ => Entry.absent, trace := [] ++ [Event.dial] } ∧
    (∀ c, nodeHandle Resolver.connect (some c) (fun _ off => (off.length, false)) 0
        [1, 0, 0, 0, 7] { conns := fun _ => Entry.absent, trace := [] }
      = Res.ok { conns := Registry.set (fun _ => Entry.absent) 7 Entry.tomb,
                 trace := [] ++ [Event.dial, Event.spawn 7 c false, Event.close c] }) ∧
    (∀ r, ∃ s1, nodeHandle r none (fun _ off => (off.length, false)) 0 [1, 0, 0, 0, 7]
        { conns := fun _ => Entry.absent, trace := [] } = Res.ok s1 ∧
      (∃ evs, s1.trace = [] ++ evs ∧ ∀ f, Event.send f ∉ evs) ∧
      nodeReadLoop r 0 [⟨[1, 0, 0, 0, 7], none, fun _ off => (off.length, false)⟩]
        { conns := fun _ => Entry.absent, trace := [] } = nodeReadLoop r 0 [] s1) :=
  close_unknown_id none (fun _ off => (off.length, false)) 0 [1, 0, 0, 0, 7] 7
    { conns := fun _ => Entry.absent, trace := [] } [] (by rfl) (by rfl)

/-- C4: every message shorter than five bytes makes the iteration of
nodeReadLoop that receives it panic on the slice expression for the id, so the
loop is aborted instead of dropping the message and going on. -/
theorem short_message_panics (r : Resolver) (dial : Option Nat) (w : Writer) (fuel : Nat)
    (m : List Nat) (s : State) (ds : List Delivery) (h : m.length < 5) :
    decodeHeader m = none ∧
    nodeHandle r dial w fuel m s = Res.panic ∧
    nodeReadLoop r fuel (⟨m, dial, w⟩ :: ds) s = Res.panic := by
  have hp := nodeHandle_short r dial w fuel m s h
  refine ⟨?_, hp, ?_⟩
  · have hs : sliceRange m PKG_HEADER_ID_BEGIN PKG_HEADER_ID_END = none := by
      rw [sliceRange, if_neg]
      intro h1
      have h2 : PKG_HEADER_ID_END = 5 := rfl
      omega
    unfold decodeHeader
    simp only [hs]
  · rw [nodeReadLoop]
    simp only [hp]

theorem short_message_panics_witness :
    decodeHeader [] = none ∧
    nodeHandle Resolver.accept none (fun _ off => (off.length, false)) 0 []
        { conns := fun _ => Entry.absent, trace := [] } = Res.panic ∧
    nodeReadLoop Resolver.accept 0
        [⟨[], none, fun _ off => (off.length, false)⟩,
         ⟨[0, 0, 0, 0, 1, 80], none, fun _ off => (off.length, false)⟩]
        { conns := fun _ => Entry.absent, trace := [] } = Res.panic :=
  short_message_panics Resolver.accept none (fun _ off => (off.length, false)) 0 []
    { conns := fun _ => Entry.absent, trace := [] }
    [⟨[0, 0, 0, 0, 1, 80], none, fun _ off => (off.length, false)⟩] (by decide)

/-- C3: payload forwarding. For a TRANSPORT frame m of more than five bytes
whose id has the active entry c, with either resolver, and a writer whose
every call either returns an error or accepts at least one and at most all of
the offered bytes, the handling of m ends (given one step per payload byte),
leaves the registry as it was, and does nothing but Write calls on c: calls
without error, then at most one call that returned an error, after which
nothing more is written. What was written is an initial part of m[5:]; it is
the whole of m[5:] when no call returned an error, which is so whenever the
writer never errs. The loop then handles the next frame. -/
theorem transport_frame_forwarded (r : Resolver) (dial : Option Nat) (w : Writer)
    (fuel : Nat) (m : List Nat) (id c : Nat) (s : State) (ds : List Delivery)
    (hlen : 5 < m.length) (hm : decodeHeader m = some (OP_TRANSPORT, id))
    (hact : s.conns id = Entry.active c)
    (hw : ∀ k off, off ≠ [] →
      (w k off).2 = true ∨ (1 ≤ (w k off).1 ∧ (w k off).1 ≤ off.length))
    (hfuel : m.length - 5 ≤ fuel) :
    ∃ (chunks : List (List Nat)) (last : Option (List Nat)) (s1 : State),
      nodeHandle r dial w fuel m s = Res.ok s1 ∧
      s1.conns = s.conns ∧
      s1.trace = s.trace ++ chunks.map (fun ch => Event.write c ch false) ++ lastWrite c last ∧
      (∃ rest, chunks.flatten ++ last.getD [] ++ rest = m.drop 5) ∧
      (last = none → chunks.flatten = m.drop 5) ∧
      ((∀ k off, (w k off).2 = false) → last = none) ∧
      nodeReadLoop r fuel (⟨m, dial, w⟩ :: ds) s = nodeReadLoop r fuel ds s1 := by
  have hw1 : ∀ k off, off ≠ [] → (w k off).2 = true ∨ 1 ≤ (w k off).1 := by
    intro k off hne
    rcases hw k off hne with h | h
    · exact Or.inl h
    · exact Or.inr h.1
  obtain ⟨chunks, last, hrun, hrest, hall, herr⟩ :=
    writeAllFrom_run w c (m.drop 5) hw1 fuel 0 0 s.trace
      (by rw [List.length_drop]; omega)
  rw [List.drop_zero] at hrest hall
  obtain ⟨_, _, _, ho⟩ := decodeHeader_some m OP_TRANSPORT id hm
  have hbody : sliceFrom m PKG_HEADER_END = some (m.drop 5) := by
    rw [sliceFrom, if_pos]
    · rfl
    · have h5 : PKG_HEADER_END = 5 := rfl
      omega
  have hnl : ¬ (m.drop 5).length < 1 := by
    rw [List.length_drop]; omega
  have hh : nodeHandle r dial w fuel m s
      = Res.ok { conns := s.conns,
                 trace := s.trace ++ chunks.map (fun ch => Event.write c ch false)
                   ++ lastWrite c last } := by
    rw [nodeHandle_decoded r dial w fuel m s OP_TRANSPORT id hm,
      getAppConn_active r dial id c s hact]
    simp only [nodeAfterResolve, ho, hbody, hnl, if_false, writeAll, hrun]
    rw [if_neg (by decide)]
  refine ⟨chunks, last, _, hh, rfl, rfl, hrest, hall, ?_,
    nodeReadLoop_cons_ok r fuel ⟨m, dial, w⟩ ds s _ hh⟩
  intro hnever
  cases hl : last with
  | none => rfl
  | some ch =>
    obtain ⟨k1, off, he⟩ := herr (by rw [hl]; simp)
    rw [hnever k1 off] at he
    exact absurd he (by simp)

theorem transport_frame_forwarded_witness :
    ∃ (chunks : List (List Nat)) (last : Option (List Nat)) (s1 : State),
      nodeHandle Resolver.accept none (fun _ _ => (1, false)) 3 [0, 0, 0, 0, 7, 80, 81, 82]
        { conns := fun j => if j = 7 then Entry.active 3 else Entry.absent, trace := [] }
        = Res.ok s1 ∧
      s1.conns = (fun j => if j = 7 then Entry.active 3 else Entry.absent) ∧
      s1.trace = [] ++ chunks.map (fun ch => Event.write 3 ch false) ++ lastWrite 3 last ∧
      (∃ rest, chunks.flatten ++ last.getD [] ++ rest = [80, 81, 82]) ∧
      (last = none → chunks.flatten = [80, 81, 82]) ∧
      ((∀ (k : Nat) (off : List Nat), ((fun _ _ => (1, false)) k off : Nat × Bool).2 = false)
        → last = none) ∧
      nodeReadLoop Resolver.accept 3 [⟨[0, 0, 0, 0, 7, 80, 81, 82], none, fun _ _ => (1, false)⟩]
        { conns := fun j => if j = 7 then Entry.active 3 else Entry.absent, trace := [] }
        = nodeReadLoop Resolver.accept 3 [] s1 :=
  transport_frame_forwarded Resolver.accept none (fun _ _ => (1, false)) 3
    [0, 0, 0, 0, 7, 80, 81, 82] 7 3
    { conns := fun j => if j = 7 then Entry.active 3 else Entry.absent, trace := [] } []
    (by decide) (by rfl) (by rfl)
    (fun _ off hne => Or.inr ⟨Nat.le_refl 1, List.length_pos.mpr hne⟩) (by decide)

/-- C6: the double-close race on an Acceptor-owned id with an active entry,
for each of the three interleavings of the steps of nodeReadLoop handling the
CLOSE frame of the peer and of the close sequence of the local appReadLoop.
When the close sequence runs between the lookup and the tombstone store of
nodeReadLoop, the entry it deleted is written again as a tombstone, and that
is the final state; in the two other interleavings the id ends absent. -/
theorem double_close_race (maxUdp id c : Nat) (reads : List ReadResult)
    (tr0 tr : List Event) (buf m : List Nat) (s : State)
    (hrun : appReadLoopRun maxUdp id true reads tr0 = Res.ok (buf, tr, true))
    (hm : decodeHeader m = some (OP_CLOSE, id)) (hact : s.conns id = Entry.active c) :
    (∃ rs, runRace m id buf [RaceStep.nodeResolve, RaceStep.nodeRest, RaceStep.appClose]
        { st := s, appConn := none } = Res.ok rs ∧
      rs.st.conns id = Entry.absent ∧ rs.st.trace = s.trace ++ [Event.close c]) ∧
    (∃ rs, runRace m id buf [RaceStep.nodeResolve, RaceStep.appClose, RaceStep.nodeRest]
        { st := s, appConn := none } = Res.ok rs ∧
      rs.st.conns id = Entry.tomb ∧
      rs.st.trace = s.trace ++ [Event.send (OP_CLOSE :: be32 id), Event.close c]) ∧
    (∃ rs, runRace m id buf [RaceStep.appClose, RaceStep.nodeResolve, RaceStep.nodeRest]
        { st := s, appConn := none } = Res.ok rs ∧
      rs.st.conns id = Entry.absent ∧
      rs.st.trace = s.trace ++ [Event.send (OP_CLOSE :: be32 id)]) := by
  obtain ⟨tail, rfl⟩ := appReadLoopRun_buf maxUdp id true reads tr0 tr buf true hrun
  have hres : getAppConn Resolver.accept none id s = (some c, s) :=
    getAppConn_active _ none id c s hact
  refine ⟨?_, ?_, ?_⟩
  · have h3 : closeSequence id true ((OP_TRANSPORT :: be32 id) ++ tail)
        { conns := s.conns.set id Entry.tomb, trace := s.trace ++ [Event.close c] }
        = Res.ok { conns := (s.conns.set id Entry.tomb).set id Entry.absent,
                   trace := s.trace ++ [Event.close c] } := by
      rw [closeSequence_inactive]
      · rfl
      · intro c1; simp [Registry.set]
    simp only [runRace, raceStep, hres, nodeAfterResolve_close _ _ m id c s hm, h3]
    exact ⟨_, rfl, by simp [Registry.set], rfl⟩
  · have h2 : closeSequence id true ((OP_TRANSPORT :: be32 id) ++ tail) s
        = Res.ok { conns := s.conns.set id Entry.absent,
                   trace := s.trace ++ [Event.send (OP_CLOSE :: be32 id)] } :=
      closeSequence_active id c true tail s hact
    simp only [runRace, raceStep, hres, h2, nodeAfterResolve_close _ _ m id c _ hm]
    exact ⟨_, rfl, by simp [Registry.set], by simp⟩
  · have h1 : closeSequence id true ((OP_TRANSPORT :: be32 id) ++ tail) s
        = Res.ok { conns := s.conns.set id Entry.absent,
                   trace := s.trace ++ [Event.send (OP_CLOSE :: be32 id)] } :=
      closeSequence_active id c true tail s hact
    have hres2 : getAppConn Resolver.accept none id
        { conns := s.conns.set id Entry.absent,
          trace := s.trace ++ [Event.send (OP_CLOSE :: be32 id)] }
        = (none, { conns := s.conns.set id Entry.absent,
                   trace := s.trace ++ [Event.send (OP_CLOSE :: be32 id)] }) := by
      simp [getAppConn, getAppConnAccept, Registry.get, Registry.set]
    simp only [runRace, raceStep, h1, hres2]
    exact ⟨_, rfl, by simp [Registry.set], rfl⟩

theorem double_close_race_witness :
    (∃ rs, runRace [1, 0, 0, 0, 1] 1 [0, 0, 0, 0, 1]
        [RaceStep.nodeResolve, RaceStep.nodeRest, RaceStep.appClose]
        { st := { conns := fun j => if j = 1 then Entry.active 9 else Entry.absent,
                  trace := [] },
          appConn := none } = Res.ok rs ∧
      rs.st.conns 1 = Entry.absent ∧ rs.st.trace = [] ++ [Event.close 9]) ∧
    (∃ rs, runRace [1, 0, 0, 0, 1] 1 [0, 0, 0, 0, 1]
        [RaceStep.nodeResolve, RaceStep.appClose, RaceStep.nodeRest]
        { st := { conns := fun j => if j = 1 then Entry.active 9 else Entry.absent,
                  trace := [] },
          appConn := none } = Res.ok rs ∧
      rs.st.conns 1 = Entry.tomb ∧
      rs.st.trace = [] ++ [Event.send (OP_CLOSE :: be32 1), Event.close 9]) ∧
    (∃ rs, runRace [1, 0, 0, 0, 1] 1 [0, 0, 0, 0, 1]
        [RaceStep.appClose, RaceStep.nodeResolve, RaceStep.nodeRest]
        { st := { conns := fun j => if j = 1 then Entry.active 9 else Entry.absent,
                  trace := [] },
          appConn := none } = Res.ok rs ∧
      rs.st.conns 1 = Entry.absent ∧
      rs.st.trace = [] ++ [Event.send (OP_CLOSE :: be32 1)]) :=
  double_close_race 105 1 9 [ReadResult.err] [] [Event.send [0, 0, 0, 0, 1]] [0, 0, 0, 0, 1]
    [1, 0, 0, 0, 1]
    { conns := fun j => if j = 1 then Entry.active 9 else Entry.absent, trace := [] }
    (by rfl) (by rfl) (by rfl)

/-- C5, as stated, fails: after the close has propagated, the registry of the
dialing side still holds the id, as a tombstone; only the accepting side has
no entry left. -/
theorem close_propagation_counterexample :
    ∃ sD1 sA2, closePropagation 1 [0, 0, 0, 0, 1] [0, 0, 0, 0, 1]
        (fun _ off => (off.length, false)) 0
        { conns := fun j => if j = 1 then Entry.active 4 else Entry.absent, trace := [] }
        { conns := fun j => if j = 1 then Entry.active 9 else Entry.absent, trace := [] }
        = Res.ok (sD1, sA2) ∧
      sD1.trace = [Event.send [1, 0, 0, 0, 1]] ∧
      sA2.trace = [Event.close 9] ∧
      sA2.conns 1 = Entry.absent ∧
      sD1.conns 1 = Entry.tomb ∧ sD1.conns 1 ≠ Entry.absent :=
  ⟨_, _, rfl, rfl, rfl, rfl, rfl, by decide⟩

/-- C5 amended: close propagation from a state where the id is active on both
sides. The close sequence of the dialing side submits the frame CLOSE followed
by the id big-endian and leaves a tombstone for the id in the registry of the
dialing side; the accepting side, on that frame, closes its application
connection, and after its own close sequence has no entry for the id. Entries
of other ids are unchanged on both sides, and any later frame for the id is
dropped on each side without a dial, a write or a change of state. -/
theorem close_propagation (maxUdp id cD cA : Nat) (readsD readsA : List ReadResult)
    (trD0 trD trA0 trA : List Event) (bufD bufA : List Nat) (w : Writer) (fuel : Nat)
    (sD sA : State) (hid : id < 2 ^ 32)
    (hD : appReadLoopRun maxUdp id false readsD trD0 = Res.ok (bufD, trD, true))
    (hA : appReadLoopRun maxUdp id true readsA trA0 = Res.ok (bufA, trA, true))
    (hactD : sD.conns id = Entry.active cD) (hactA : sA.conns id = Entry.active cA) :
    ∃ sD1 sA2, closePropagation id bufD bufA w fuel sD sA = Res.ok (sD1, sA2) ∧
      sD1.trace = sD.trace ++ [Event.send (OP_CLOSE :: be32 id)] ∧
      sA2.trace = sA.trace ++ [Event.close cA] ∧
      sA2.conns id = Entry.absent ∧
      sD1.conns id = Entry.tomb ∧
      (∀ j, j ≠ id → sD1.conns j = sD.conns j ∧ sA2.conns j = sA.conns j) ∧
      (∀ (m2 : List Nat) (op : Nat) (dial : Option Nat) (w2 : Writer) (fuel2 : Nat),
        decodeHeader m2 = some (op, id) →
        nodeHandle Resolver.accept dial w2 fuel2 m2 sA2 = Res.ok sA2 ∧
        nodeHandle Resolver.connect dial w2 fuel2 m2 sD1 = Res.ok sD1) := by
  obtain ⟨tailD, rfl⟩ := appReadLoopRun_buf maxUdp id false readsD trD0 trD bufD true hD
  obtain ⟨tailA, rfl⟩ := appReadLoopRun_buf maxUdp id true readsA trA0 trA bufA true hA
  have h1 : closeSequence id false ((OP_TRANSPORT :: be32 id) ++ tailD) sD
      = Res.ok { conns := sD.conns.set id Entry.tomb,
                 trace := sD.trace ++ [Event.send (OP_CLOSE :: be32 id)] } :=
    closeSequence_active id cD false tailD sD hactD
  have hdec : decodeHeader (OP_CLOSE :: be32 id) = some (OP_CLOSE, id) := by
    have := decodeHeader_frame OP_CLOSE id hid []
    rwa [List.append_nil] at this
  have h2 : nodeHandle Resolver.accept none w fuel (OP_CLOSE :: be32 id) sA
      = Res.ok { conns := sA.conns.set id Entry.tomb, trace := sA.trace ++ [Event.close cA] } :=
    nodeHandle_close_active _ none w fuel _ id cA sA hdec hactA
  have h3 : closeSequence id true ((OP_TRANSPORT :: be32 id) ++ tailA)
      { conns := sA.conns.set id Entry.tomb, trace := sA.trace ++ [Event.close cA] }
      = Res.ok { conns := (sA.conns.set id Entry.tomb).set id Entry.absent,
                 trace := sA.trace ++ [Event.close cA] } := by
    rw [closeSequence_inactive]
    · rfl
    · intro c1; simp [Registry.set]
  have hrun : closePropagation id ((OP_TRANSPORT :: be32 id) ++ tailD)
      ((OP_TRANSPORT :: be32 id) ++ tailA) w fuel sD sA
      = Res.ok ({ conns := sD.conns.set id Entry.tomb,
                  trace := sD.trace ++ [Event.send (OP_CLOSE :: be32 id)] },
                { conns := (sA.conns.set id Entry.tomb).set id Entry.absent,
                  trace := sA.trace ++ [Event.close cA] }) := by
    unfold closePropagation
    simp only [h1, List.drop_left, sentFrames, List.filterMap_cons, List.filterMap_nil,
      List.map_cons, List.map_nil, nodeReadLoop, h2, h3]
  refine ⟨_, _, hrun, rfl, rfl, by simp [Registry.set], by simp [Registry.set], ?_, ?_⟩
  · intro j hj
    simp [Registry.set, hj]
  · intro m2 op dial w2 fuel2 hm2
    constructor
    · exact nodeHandle_unresolved _ dial w2 fuel2 m2 op id _ hm2
        (Or.inr ⟨rfl, by simp [Registry.set]⟩)
    · exact nodeHandle_unresolved _ dial w2 fuel2 m2 op id _ hm2
        (Or.inl (by simp [Registry.set]))

theorem close_propagation_witness :
    ∃ sD1 sA2, closePropagation 1 [0, 0, 0, 0, 1] [0, 0, 0, 0, 1]
        (fun _ off => (off.length, false)) 0
        { conns := fun j => if j = 1 then Entry.active 4 else Entry.absent, trace := [] }
        { conns := fun j => if j = 1 then Entry.active 9 else Entry.absent, trace := [] }
        = Res.ok (sD1, sA2) ∧
      sD1.trace = [] ++ [Event.send (OP_CLOSE :: be32 1)] ∧
      sA2.trace = [] ++ [Event.close 9] ∧
      sA2.conns 1 = Entry.absent ∧
      sD1.conns 1 = Entry.tomb ∧
      (∀ j, j ≠ 1 → sD1.conns j = (if j = 1 then Entry.active 4 else Entry.absent) ∧
        sA2.conns j = (if j = 1 then Entry.active 9 else Entry.absent)) ∧
      (∀ (m2 : List Nat) (op : Nat) (dial : Option Nat) (w2 : Writer) (fuel2 : Nat),
        decodeHeader m2 = some (op, 1) →
        nodeHandle Resolver.accept dial w2 fuel2 m2 sA2 = Res.ok sA2 ∧
        nodeHandle Resolver.connect dial w2 fuel2 m2 sD1 = Res.ok sD1) :=
  close_propagation 105 1 4 9 [ReadResult.err] [ReadResult.err] [] [] []
    [Event.send [0, 0, 0, 0, 1]] [0, 0, 0, 0, 1] [0, 0, 0, 0, 1]
    (fun _ off => (off.length, false)) 0
    { conns := fun j => if j = 1 then Entry.active 4 else Entry.absent, trace := [] }
    { conns := fun j => if j = 1 then Entry.active 9 else Entry.absent, trace := [] }
    (by decide) (by rfl) (by rfl) (by rfl) (by rfl)

end Transport
